import Mathlib

/-!
Shallow embedding of chainer/functions/pooling/roi_align_2d.py (CPU paths).

Real arithmetic (Python float / numpy float32) is modelled by exact rationals.
Machine arrays are modelled as total functions together with explicit shape
data; reads outside the declared shape simply read the function (the safety
claims show in-shape accesses only use in-range indices).

The CPU forward and backward passes iterate the sampling grid with Python
while-loops whose `continue` statement (taken when a sample point is out of
bounds) jumps back to the loop condition WITHOUT executing the trailing
`ix += 1` / `iy += 1` increments.  The loops are therefore partial: they are
embedded fuel-indexed, returning `none` when the fuel is exhausted.  A run
that diverges in Python yields `none` for every fuel; a terminating run
yields `some` for all sufficiently large fuel.
-/

namespace RoiAlign2D

/-- Python numeric argument for spatial_scale: either an int or a float
(roi_align_2d.py lines 46-52 branch on isinstance). -/
inductive PyNum where
  | pyInt (n : ℤ)
  | pyFloat (q : ℚ)
deriving DecidableEq

/-- Argument accepted for the sampling-ratio parameter: a single int or a
pair of ints (roi_align_2d.py `_pair`, lines 28-31). -/
inductive SRArg where
  | single (n : ℤ)
  | pair (a b : ℤ)
deriving DecidableEq

/-- Embedding of `_pair` (roi_align_2d.py lines 28-31): an iterable is
returned as is, a scalar is duplicated. -/
def SRArg.toPair : SRArg → ℤ × ℤ
  | .single n => (n, n)
  | .pair a b => (a, b)

/-- Validated operator configuration (the state stored by
`ROIAlign2D.__init__`, lines 60-62).  `srh`/`srw` are the two components of
the source's sampling-ratio pair (that source field name is avoided here).
All stored values have passed the constructor checks, so they are kept as
naturals. -/
structure Config where
  outh : ℕ
  outw : ℕ
  spatial_scale : ℚ
  srh : ℕ
  srw : ℕ
deriving DecidableEq

/-- Embedding of `ROIAlign2D.__init__` (roi_align_2d.py lines 38-62).
Checks, in source order: `outh`/`outw` positive ints; `spatial_scale` an int
(silently converted to float, NO positivity check on this branch, lines
46-47) or a positive float (lines 48-52); each sampling-ratio component a
non-negative int (lines 53-58). -/
def roiAlignInit (outh outw : ℤ) (spatial_scale : PyNum) (sr : SRArg) :
    Except String Config :=
  if ¬ 0 < outh then .error "outh must be positive integer"
  else if ¬ 0 < outw then .error "outw must be positive integer"
  else
    let build : ℚ → Except String Config := fun scale =>
      let p := sr.toPair
      if 0 ≤ p.1 ∧ 0 ≤ p.2 then
        .ok ⟨outh.toNat, outw.toNat, scale, p.1.toNat, p.2.toNat⟩
      else .error "sampling_ratio must be integer greater than or equal 0"
    match spatial_scale with
    | .pyInt n => build (n : ℚ)
    | .pyFloat q =>
        if 0 < q then build q
        else .error "spatial_scale must be a positive float number"

/-- Boolean success test for the embedded constructor. -/
def exceptOk (e : Except String Config) : Bool :=
  match e with
  | .ok _ => true
  | .error _ => false

/-- One row of the ROI list: (batch_index, x_min, y_min, x_max, y_max),
all float32 in the source (roi_align_2d.py lines 95-99, 559-561). -/
structure Roi where
  ind : ℚ
  x_min : ℚ
  y_min : ℚ
  x_max : ℚ
  y_max : ℚ
deriving DecidableEq

/-- Python `int()` applied to a float: truncation toward zero
(used for `roi_batch_ind = int(bottom_rois[n, 0])`, line 95). -/
def pyTrunc (q : ℚ) : ℤ := if q < 0 then ⌈q⌉ else ⌊q⌋

/-- The input feature map: shape (N, C, H, W) plus an element function. -/
structure FeatureMap where
  N : ℕ
  C : ℕ
  H : ℕ
  W : ℕ
  val : ℤ → ℤ → ℤ → ℤ → ℚ

/-- Retained `self._bottom_data_shape` (set in forward, line 78; used by
backward, line 312). -/
structure DataShape where
  n : ℕ
  c : ℕ
  h : ℕ
  w : ℕ
deriving DecidableEq

/-- Embedding of lines 132-135: coordinates at or below 0 are clamped to 0
(`if y <= 0: y = 0`, and likewise for x). -/
def clampLow (q : ℚ) : ℚ := if q ≤ 0 then 0 else q

/-- Result of the per-axis neighbor-index computation: low/high integer
neighbors and the (possibly pinned) continuous coordinate. -/
structure AxisOut where
  low : ℤ
  high : ℤ
  coord : ℚ
deriving DecidableEq

/-- Embedding of lines 137-150 for one axis of extent `n`: the low index is
`int(q)` (q is non-negative here, so truncation is the floor); if it reaches
the last valid index both neighbors collapse to `n - 1` and the coordinate
is pinned to that integer. -/
def axisIdx (n : ℕ) (q : ℚ) : AxisOut :=
  let lo : ℤ := ⌊q⌋
  if (n : ℤ) - 1 ≤ lo then ⟨(n : ℤ) - 1, (n : ℤ) - 1, (((n : ℤ) - 1 : ℤ) : ℚ)⟩
  else ⟨lo, lo + 1, q⟩

/-- Output of the bilinear-interpolation block (lines 127-165): corner
indices, the four corner weights, and the clamped/pinned coordinates (the
source mutates `y`/`x` in place; the mutated `y` persists across inner-loop
iterations and is threaded back by the caller). -/
structure BilinOut where
  y_low : ℤ
  x_low : ℤ
  y_high : ℤ
  x_high : ℤ
  w1 : ℚ
  w2 : ℚ
  w3 : ℚ
  w4 : ℚ
  y : ℚ
  x : ℚ
deriving DecidableEq

/-- Embedding of the bilinear-interpolation block, lines 127-165 of
roi_align_2d.py (shared verbatim between forward and backward).  Returns
`none` exactly when the out-of-bounds test of line 128 fires (the `continue`
path); otherwise the clamp, neighbor and weight computations of lines
132-165. -/
def bilinearInterp (H W : ℕ) (y x : ℚ) : Option BilinOut :=
  if y < -1 ∨ y > (H : ℚ) ∨ x < -1 ∨ x > (W : ℚ) then none
  else
    let y1 := clampLow y
    let x1 := clampLow x
    let ay := axisIdx H y1
    let ax := axisIdx W x1
    let ly := ay.coord - (ay.low : ℚ)
    let lx := ax.coord - (ax.low : ℚ)
    let hy := 1 - ly
    let hx := 1 - lx
    some ⟨ay.low, ax.low, ay.high, ax.high,
          hy * hx, hy * lx, ly * hx, ly * lx, ay.coord, ax.coord⟩

/-- Output of the region-geometry computation, lines 95-115 (forward) and
326-348 (backward, identical text): scaled region bounds, clamped region
size, bin sizes, sampling-grid resolution and the nominal sample count. -/
structure RoiGeom where
  roi_start_w : ℚ
  roi_start_h : ℚ
  roi_width : ℚ
  roi_height : ℚ
  bin_size_h : ℚ
  bin_size_w : ℚ
  grid_h : ℤ
  grid_w : ℤ
  count : ℚ
deriving DecidableEq

/-- Embedding of the region-geometry resolver (lines 95-115): scale the raw
bounds by spatial_scale, clamp the region size to at least 1, divide by the
output dims for the bin sizes, and take the configured sampling ratio when
positive, else the ceiling of region size / output dim.  `count` is the
nominal sample count grid_h * grid_w used as the averaging denominator. -/
def roiGeom (cfg : Config) (roi : Roi) : RoiGeom :=
  let roi_start_w := roi.x_min * cfg.spatial_scale
  let roi_start_h := roi.y_min * cfg.spatial_scale
  let roi_end_w := roi.x_max * cfg.spatial_scale
  let roi_end_h := roi.y_max * cfg.spatial_scale
  let roi_width := max (roi_end_w - roi_start_w) 1
  let roi_height := max (roi_end_h - roi_start_h) 1
  let bin_size_h := roi_height / (cfg.outh : ℚ)
  let bin_size_w := roi_width / (cfg.outw : ℚ)
  let grid_h : ℤ := if 0 < cfg.srh then (cfg.srh : ℤ) else ⌈roi_height / (cfg.outh : ℚ)⌉
  let grid_w : ℤ := if 0 < cfg.srw then (cfg.srw : ℤ) else ⌈roi_width / (cfg.outw : ℚ)⌉
  ⟨roi_start_w, roi_start_h, roi_width, roi_height, bin_size_h, bin_size_w,
   grid_h, grid_w, (grid_h : ℚ) * (grid_w : ℚ)⟩

/-- Sample-point y coordinate for grid row `iy` of output cell row `ph`
(lines 120-121). -/
def sampleY (g : RoiGeom) (ph : ℕ) (iy : ℤ) : ℚ :=
  g.roi_start_h + (ph : ℚ) * g.bin_size_h + ((iy : ℚ) + 1/2) * g.bin_size_h / (g.grid_h : ℚ)

/-- Sample-point x coordinate for grid column `ix` of output cell column
`pw` (lines 124-125). -/
def sampleX (g : RoiGeom) (pw : ℕ) (ix : ℤ) : ℚ :=
  g.roi_start_w + (pw : ℚ) * g.bin_size_w + ((ix : ℚ) + 1/2) * g.bin_size_w / (g.grid_w : ℚ)

/-- Embedding of the inner `while ix < roi_bin_grid_w` loop of forward_cpu
(lines 122-171).  The state is (ix, y, acc): `y` is threaded because the
source's clamp/pin steps mutate it in place and the mutation persists for
later `ix` iterations.  On an out-of-bounds sample the source's `continue`
returns to the condition without `ix += 1`, so the recursive call keeps the
state unchanged; fuel exhaustion models that divergence as `none`. -/
def innerLoopF (v : ℤ → ℤ → ℚ) (H W : ℕ) (g : RoiGeom) (pw : ℕ) :
    ℕ → ℤ → ℚ → ℚ → Option ℚ
  | 0, _, _, _ => none
  | fuel + 1, ix, y, acc =>
    if ix < g.grid_w then
      let x := sampleX g pw ix
      match bilinearInterp H W y x with
      | none => innerLoopF v H W g pw fuel ix y acc
      | some b =>
        let v1 := v b.y_low b.x_low
        let v2 := v b.y_low b.x_high
        let v3 := v b.y_high b.x_low
        let v4 := v b.y_high b.x_high
        innerLoopF v H W g pw fuel (ix + 1) b.y
          (acc + (b.w1 * v1 + b.w2 * v2 + b.w3 * v3 + b.w4 * v4))
    else some acc

/-- Embedding of the outer `while iy < roi_bin_grid_h` loop of forward_cpu
(lines 118-172).  `y` is recomputed from scratch at each iy (line 120), so
the inner loop's mutation of y does not cross iy iterations. -/
def outerLoopF (v : ℤ → ℤ → ℚ) (H W : ℕ) (g : RoiGeom) (ph pw : ℕ) :
    ℕ → ℤ → ℚ → Option ℚ
  | 0, _, _ => none
  | fuel + 1, iy, acc =>
    if iy < g.grid_h then
      let y := sampleY g ph iy
      match innerLoopF v H W g pw fuel 0 y acc with
      | none => none
      | some acc2 => outerLoopF v H W g ph pw fuel (iy + 1) acc2
    else some acc

/-- Forward computation of one output cell (n, c, ph, pw): the body of the
flat loop of forward_cpu (lines 89-175) for a fixed flat index.  The
accumulated value is divided by the nominal `count` (line 174). -/
def cellForward (cfg : Config) (x : FeatureMap) (roi : Roi) (c ph pw : ℕ)
    (fuel : ℕ) : Option ℚ :=
  let g := roiGeom cfg roi
  let b := pyTrunc roi.ind
  let v : ℤ → ℤ → ℚ := fun yy xx => x.val b (c : ℤ) yy xx
  (outerLoopF v x.H x.W g ph pw fuel 0 0).map (fun acc => acc / g.count)

/-- Element function of the output array. -/
def TopFun := ℕ → ℕ → ℕ → ℕ → ℚ

/-- Point update of the output array: `top_data[n, c, ph, pw] = q`
(line 175). -/
def writeCell (t : TopFun) (n c ph pw : ℕ) (q : ℚ) : TopFun :=
  fun a b d e => if a = n ∧ b = c ∧ d = ph ∧ e = pw then q else t a b d e

/-- The output cells in the order the flat loop `for i in range(size)`
visits them: i = ((n * channels + c) * outh + ph) * outw + pw, so the index
map of lines 90-93 enumerates (n, c, ph, pw) lexicographically with pw
fastest. -/
def idxList (nR C outh outw : ℕ) : List (ℕ × ℕ × ℕ × ℕ) :=
  (List.range nR).flatMap fun n =>
    (List.range C).flatMap fun c =>
      (List.range outh).flatMap fun ph =>
        (List.range outw).map fun pw => (n, c, ph, pw)

/-- Default ROI row (never read in-range: the flat loop only uses n below
the ROI count). -/
def dRoi : Roi := ⟨0, 0, 0, 0, 0⟩

/-- Sequential execution of the flat forward loop over all output cells,
writing each computed value into the output array.  Diverges (`none`) as
soon as one cell's sampling loop diverges. -/
def cellsLoopF (cfg : Config) (x : FeatureMap) (rois : List Roi) (fuel : ℕ) :
    List (ℕ × ℕ × ℕ × ℕ) → TopFun → Option TopFun
  | [], t => some t
  | (n, c, ph, pw) :: rest, t =>
    match cellForward cfg x (rois.getD n dRoi) c ph pw fuel with
    | none => none
    | some q => cellsLoopF cfg x rois fuel rest (writeCell t n c ph pw q)

/-- The array returned by forward: its shape and its element function. -/
structure TopData where
  shape : ℕ × ℕ × ℕ × ℕ
  val : TopFun

/-- Embedding of `ROIAlign2D.forward_cpu` (lines 76-177): allocate the
output of shape (n_rois, channels, outh, outw) (lines 82-84) and run the
flat loop over every output cell.  `numpy.empty` leaves elements
uninitialized; every cell is written exactly once, the initial element
function is taken to be 0. -/
def forwardCPU (cfg : Config) (x : FeatureMap) (rois : List Roi) (fuel : ℕ) :
    Option TopData :=
  (cellsLoopF cfg x rois fuel (idxList rois.length x.C cfg.outh cfg.outw)
      (fun _ _ _ _ => 0)).map
    (fun t => ⟨(rois.length, x.C, cfg.outh, cfg.outw), t⟩)

/-- Element function of the gradient map `bottom_diff` (shaped like the
feature map). -/
def Grad := ℤ → ℤ → ℤ → ℤ → ℚ

/-- The zero-initialized gradient map of backward_cpu line 313
(`numpy.zeros(self._bottom_data_shape, ...)`). -/
def zeroGrad : Grad := fun _ _ _ _ => 0

/-- Accumulation `bottom_diff[b, c, y, x] += g` (lines 402-405). -/
def addAt (D : Grad) (b c y x : ℤ) (g : ℚ) : Grad :=
  fun b' c' y' x' =>
    if b' = b ∧ c' = c ∧ y' = y ∧ x' = x then D b' c' y' x' + g else D b' c' y' x'

/-- Pointwise sum of two gradient maps. -/
def gadd (D E : Grad) : Grad := fun b c y x => D b c y x + E b c y x

/-- Scatter step of one backward sample (lines 389-405): the gradient
contributions `top_diff_this_bin * w / count` accumulated into the four
corner cells, guarded by the non-negativity check of lines 400-401. -/
def bwUpdate (bi c : ℤ) (g : RoiGeom) (tdb : ℚ) (b : BilinOut) (D : Grad) : Grad :=
  let g1 := tdb * b.w1 / g.count
  let g2 := tdb * b.w2 / g.count
  let g3 := tdb * b.w3 / g.count
  let g4 := tdb * b.w4 / g.count
  if 0 ≤ b.x_low ∧ 0 ≤ b.x_high ∧ 0 ≤ b.y_low ∧ 0 ≤ b.y_high then
    addAt (addAt (addAt (addAt D bi c b.y_low b.x_low g1)
      bi c b.y_low b.x_high g2) bi c b.y_high b.x_low g3)
      bi c b.y_high b.x_high g4
  else D

/-- Embedding of the inner `while ix < roi_bin_grid_w` loop of backward_cpu
(lines 354-406): same sampling geometry and bilinear block as forward, with
the scatter step `bwUpdate` in place of the gather.  As in forward, the
`continue` of line 362 skips `ix += 1`, so an out-of-bounds sample repeats
the same state forever (fuel models this); the state conventions are those
of `innerLoopF`. -/
def bwInner (bi c : ℤ) (H W : ℕ) (g : RoiGeom) (pw : ℕ) (tdb : ℚ) :
    ℕ → ℤ → ℚ → Grad → Option Grad
  | 0, _, _, _ => none
  | fuel + 1, ix, y, D =>
    if ix < g.grid_w then
      let x := sampleX g pw ix
      match bilinearInterp H W y x with
      | none => bwInner bi c H W g pw tdb fuel ix y D
      | some b => bwInner bi c H W g pw tdb fuel (ix + 1) b.y (bwUpdate bi c g tdb b D)
    else some D

/-- Embedding of the outer `while iy < roi_bin_grid_h` loop of backward_cpu
(lines 350-407). -/
def bwOuter (bi c : ℤ) (H W : ℕ) (g : RoiGeom) (ph pw : ℕ) (tdb : ℚ) :
    ℕ → ℤ → Grad → Option Grad
  | 0, _, _ => none
  | fuel + 1, iy, D =>
    if iy < g.grid_h then
      let y := sampleY g ph iy
      match bwInner bi c H W g pw tdb fuel 0 y D with
      | none => none
      | some D2 => bwOuter bi c H W g ph pw tdb fuel (iy + 1) D2
    else some D

/-- Backward computation for one output cell (n, c, ph, pw): the body of
the flat loop of backward_cpu (lines 320-407) for a fixed flat index,
updating the gradient map.  `tdb` is `top_diff[n, c, ph, pw]` (line 337). -/
def cellBackward (cfg : Config) (H W : ℕ) (roi : Roi) (c ph pw : ℕ)
    (tdb : ℚ) (fuel : ℕ) (D : Grad) : Option Grad :=
  let g := roiGeom cfg roi
  let bi := pyTrunc roi.ind
  bwOuter bi (c : ℤ) H W g ph pw tdb fuel 0 D

/-- The (c, ph, pw) cells of one ROI in the order the flat backward loop
visits them (pw fastest). -/
def cellIdxList (C outh outw : ℕ) : List (ℕ × ℕ × ℕ) :=
  (List.range C).flatMap fun c =>
    (List.range outh).flatMap fun ph =>
      (List.range outw).map fun pw => (c, ph, pw)

/-- Sequential processing of all output cells of one ROI row in the
backward pass.  `gyn c ph pw` is `top_diff[n, c, ph, pw]` for this ROI's
index n. -/
def bwCells (cfg : Config) (H W : ℕ) (roi : Roi) (gyn : ℕ → ℕ → ℕ → ℚ)
    (fuel : ℕ) : List (ℕ × ℕ × ℕ) → Grad → Option Grad
  | [], D => some D
  | (c, ph, pw) :: rest, D =>
    match cellBackward cfg H W roi c ph pw (gyn c ph pw) fuel D with
    | none => none
    | some D2 => bwCells cfg H W roi gyn fuel rest D2

/-- Backward processing of one ROI row: all its (c, ph, pw) output cells in
flat-loop order. -/
def roiBackward (cfg : Config) (shape : DataShape) (roi : Roi)
    (gyn : ℕ → ℕ → ℕ → ℚ) (fuel : ℕ) (D : Grad) : Option Grad :=
  bwCells cfg shape.h shape.w roi gyn fuel
    (cellIdxList shape.c cfg.outh cfg.outw) D

/-- Sequential processing of the ROI list in the backward pass; `n` is the
ROI-list index of the head row (the flat loop of backward_cpu visits ROIs
in increasing n, all of one ROI's cells before the next). -/
def roisLoop (cfg : Config) (shape : DataShape) (gy : ℕ → ℕ → ℕ → ℕ → ℚ)
    (fuel : ℕ) : List Roi → ℕ → Grad → Option Grad
  | [], _, D => some D
  | roi :: rest, n, D =>
    match roiBackward cfg shape roi (gy n) fuel D with
    | none => none
    | some D2 => roisLoop cfg shape gy fuel rest (n + 1) D2

/-- Embedding of `ROIAlign2D.backward_cpu` (lines 310-409): zero-initialize
the gradient map (line 313) and run the flat loop over every output cell of
every ROI.  `bottom_data` is the first element of `inputs`; the source only
reads `inputs[1]` (the ROI list, line 311) and the retained shape
(line 312), never the feature map's values. -/
def backwardCPU (cfg : Config) (bottom_data : FeatureMap) (rois : List Roi)
    (shape : DataShape) (gy : ℕ → ℕ → ℕ → ℕ → ℚ) (fuel : ℕ) : Option Grad :=
  roisLoop cfg shape gy fuel rois 0 zeroGrad

/-- Concatenation of two output-gradient arrays along the ROI axis: row n of
the combined array is row n of the first for n below k, else row n - k of
the second. -/
def gyConcat (k : ℕ) (gy1 gy2 : ℕ → ℕ → ℕ → ℕ → ℚ) : ℕ → ℕ → ℕ → ℕ → ℚ :=
  fun n => if n < k then gy1 n else gy2 (n - k)

/-! ### Claim C2: boundary classification of sample coordinates -/

/-- Claim C2, counterexample: a sample coordinate y exactly equal to height
(here height = 2, y = 2, x = 1/2) is NOT skipped as out-of-bounds — the
bilinear block accepts it (the test of line 128 is strict, `y > height`),
so the claim that y = height is treated out-of-bounds is false on the
code. -/
theorem c2_boundary_counterexample :
    (bilinearInterp 2 2 2 (1/2)).isSome = true := by
  norm_num [bilinearInterp]

/-- Claim C2 (amended): a sample point is in-bounds (interpolated) iff
-1 ≤ y ≤ height and -1 ≤ x ≤ width; in particular y exactly equal to
height is IN-bounds (it is collapsed to the last row and interpolated),
while only y strictly greater than height (or below -1) is skipped;
y = height - epsilon is in-bounds as the claim says. -/
theorem c2_inbounds_iff (H W : ℕ) (y x : ℚ) :
    (bilinearInterp H W y x).isSome = true ↔
      (-1 ≤ y ∧ y ≤ (H : ℚ) ∧ -1 ≤ x ∧ x ≤ (W : ℚ)) := by
  rw [bilinearInterp]
  split_ifs with h
  · simp only [Option.isSome_none, Bool.false_eq_true, false_iff]
    rintro ⟨h1, h2, h3, h4⟩
    rcases h with h | h | h | h <;> linarith
  · push_neg at h
    simp only [Option.isSome_some, true_iff]
    exact ⟨h.1, h.2.1, h.2.2.1, h.2.2.2⟩

/-! ### Claim C3: constructor validation -/

/-- Claim C3, counterexample: constructing the operator with the
non-positive spatial scale 0 given as a Python int succeeds (the
`isinstance(spatial_scale, int)` branch of lines 46-47 converts it to float
without any positivity check), so "non-positive spatial scale causes a
construction-time error" is false on the code. -/
theorem c3_init_counterexample :
    exceptOk (roiAlignInit 1 1 (PyNum.pyInt 0) (SRArg.single 1)) = true := by
  rfl

/-- Claim C3 (amended): construction succeeds iff the output height and
width are positive, the spatial scale is either ANY int (converted to float
unchecked) or a positive float, and both sampling-ratio components are
non-negative; equivalently, an error is raised exactly for non-positive
output dims, a non-positive float scale, or a negative sampling ratio —
a non-positive integer scale is accepted.  (Forward/backward themselves
contain no configuration checks at all, as the embedding shows.) -/
theorem c3_init_ok_iff (outh outw : ℤ) (s : PyNum) (sr : SRArg) :
    exceptOk (roiAlignInit outh outw s sr) = true ↔
      (0 < outh ∧ 0 < outw ∧
        (match s with | .pyInt _ => True | .pyFloat q => 0 < q) ∧
        0 ≤ sr.toPair.1 ∧ 0 ≤ sr.toPair.2) := by
  cases s <;>
    simp only [roiAlignInit, exceptOk] <;>
    split_ifs <;>
    simp_all

/-! ### Non-termination of the CPU sampling loops

When a sample point fails the bounds test, the source's `continue` skips the
`ix += 1` increment, so the inner while-loop re-evaluates the very same
sample forever.  The following lemmas capture this: once the current sample
is out of bounds, the inner loop returns `none` for every fuel. -/

/-- Helper: if the sample at the current inner-loop state is out-of-bounds,
the forward inner loop never terminates (the `continue` of line 130 leaves
`ix` and `y` unchanged). -/
lemma innerLoopF_stuck (v : ℤ → ℤ → ℚ) (H W : ℕ) (g : RoiGeom) (pw : ℕ)
    (ix : ℤ) (y acc : ℚ) (hix : ix < g.grid_w)
    (hb : bilinearInterp H W y (sampleX g pw ix) = none) :
    ∀ fuel, innerLoopF v H W g pw fuel ix y acc = none := by
  intro fuel
  induction fuel with
  | zero => rfl
  | succ n ih => simp only [innerLoopF, if_pos hix, hb]; exact ih

/-- Helper: if the inner loop diverges on the first grid row, the forward
outer loop diverges. -/
lemma outerLoopF_firstStuck (v : ℤ → ℤ → ℚ) (H W : ℕ) (g : RoiGeom)
    (ph pw : ℕ) (hgh : (0 : ℤ) < g.grid_h)
    (hinner : ∀ fuel acc, innerLoopF v H W g pw fuel 0 (sampleY g ph 0) acc = none) :
    ∀ fuel acc, outerLoopF v H W g ph pw fuel 0 acc = none := by
  intro fuel acc
  cases fuel with
  | zero => rfl
  | succ n => simp only [outerLoopF, if_pos hgh, hinner]

/-- Helper: a cell whose sampling loop diverges makes `cellForward`
return `none`. -/
lemma cellForward_none (cfg : Config) (x : FeatureMap) (roi : Roi)
    (c ph pw fuel : ℕ)
    (h : outerLoopF (fun yy xx => x.val (pyTrunc roi.ind) (c : ℤ) yy xx)
        x.H x.W (roiGeom cfg roi) ph pw fuel 0 0 = none) :
    cellForward cfg x roi c ph pw fuel = none := by
  simp only [cellForward, h]
  rfl

/-- Helper: with one ROI, one channel and a 1 x 1 output, forward reduces
to the single cell (0,0,0,0); if that cell diverges, forward diverges. -/
lemma forward_single_none (cfg : Config) (x : FeatureMap) (roi : Roi)
    (hC : x.C = 1) (hh : cfg.outh = 1) (hw : cfg.outw = 1)
    (hcell : ∀ fuel, cellForward cfg x roi 0 0 0 fuel = none) :
    ∀ fuel, forwardCPU cfg x [roi] fuel = none := by
  intro fuel
  simp only [forwardCPU, List.length_singleton, hC, hh, hw]
  have hidx : idxList 1 1 1 1 = [(0, 0, 0, 0)] := rfl
  rw [hidx]
  simp only [cellsLoopF]
  have hroi : [roi].getD 0 dRoi = roi := rfl
  rw [hroi, hcell fuel]
  rfl

/-- Configuration for the C1 failing input: 1 x 1 output, spatial scale 1,
sampling ratio 1 (constructed values all valid). -/
def cfg1 : Config := ⟨1, 1, 1, 1, 1⟩

/-- Feature map for the C1 failing input: shape (1, 1, 2, 2), all zeros. -/
def x1 : FeatureMap := ⟨1, 1, 2, 2, fun _ _ _ _ => 0⟩

/-- ROI for the C1 failing input: batch 0, box (0, 5) - (1, 6); entirely
below the 2 x 2 feature map, so its (single) sample point has y = 11/2 > 2
and is out-of-bounds. -/
def roi1 : Roi := ⟨0, 0, 5, 1, 6⟩

/-- Claim C1: FALSE on the CPU code.  On the valid input (cfg1, x1, roi1) —
correct shapes and dtypes, one sample point out-of-bounds, which the spec
says is skipped — forward_cpu never completes: for every fuel the embedded
flat loop yields `none`, because the `continue` of line 130 jumps back to
`while ix < roi_bin_grid_w` without executing `ix += 1`.  The claim (which
matches the reference algorithm and the GPU kernel, where the `for` loop
still increments) is right and the CPU code is wrong. -/
theorem c1_forward_diverges : ∀ fuel, forwardCPU cfg1 x1 [roi1] fuel = none := by
  have hg : roiGeom cfg1 roi1 = ⟨0, 5, 1, 1, 1, 1, 1, 1, 1⟩ := by
    norm_num [roiGeom, cfg1, roi1]
  have hb : bilinearInterp 2 2 (sampleY ⟨0, 5, 1, 1, 1, 1, 1, 1, 1⟩ 0 0)
      (sampleX ⟨0, 5, 1, 1, 1, 1, 1, 1, 1⟩ 0 0) = none := by
    norm_num [bilinearInterp, sampleY, sampleX]
  refine forward_single_none cfg1 x1 roi1 rfl rfl rfl (fun fuel => ?_)
  refine cellForward_none cfg1 x1 roi1 0 0 0 fuel ?_
  rw [show x1.H = 2 from rfl, show x1.W = 2 from rfl, hg]
  exact outerLoopF_firstStuck _ 2 2 _ 0 0 (by norm_num)
    (fun fuel acc => innerLoopF_stuck _ 2 2 _ 0 0 _ acc (by norm_num) hb fuel)
    fuel 0

/-- Configuration for the C4 failing input: 1 x 1 output, spatial scale 1,
sampling-ratio pair (1, 2): a 1 x 2 sampling grid in each bin. -/
def cfg4 : Config := ⟨1, 1, 1, 1, 2⟩

/-- Feature map for the C4 failing input: shape (1, 1, 2, 2), all zeros. -/
def x4 : FeatureMap := ⟨1, 1, 2, 2, fun _ _ _ _ => 0⟩

/-- ROI for the C4 failing input: batch 0, box (1, 0) - (3, 1), straddling
the right edge of the 2 x 2 feature map: the first grid sample (x = 3/2) is
in-bounds, the second (x = 5/2) is out-of-bounds. -/
def roi4 : Roi := ⟨0, 1, 0, 3, 1⟩

/-- Claim C4: the division by the nominal sample count with skipped
out-of-bounds samples is UNREACHABLE in the CPU code.  On (cfg4, x4,
roi4) — a cell whose sampling grid has one in-bounds and one out-of-bounds
sample — the claim says the skipped sample still counts in the denominator
and a value is produced; instead, as soon as the out-of-bounds sample is
reached, the `continue` without `ix += 1` loops forever and no division
ever happens: forward yields `none` at every fuel.  (In any run of the CPU
code that does complete, every grid sample was in-bounds, so the divisor
grid_h * grid_w — which the code does use, lines 115 and 174 — coincides
with the count of contributing samples.) -/
theorem c4_nominal_count_diverges : ∀ fuel, forwardCPU cfg4 x4 [roi4] fuel = none := by
  have hg : roiGeom cfg4 roi4 = ⟨1, 0, 2, 1, 1, 2, 1, 2, 2⟩ := by
    norm_num [roiGeom, cfg4, roi4]
  have hb0 : bilinearInterp 2 2 (sampleY ⟨1, 0, 2, 1, 1, 2, 1, 2, 2⟩ 0 0)
      (sampleX ⟨1, 0, 2, 1, 1, 2, 1, 2, 2⟩ 0 0) =
      some ⟨0, 1, 1, 1, 1/2, 0, 1/2, 0, 1/2, 1⟩ := by
    norm_num [bilinearInterp, sampleY, sampleX, clampLow, axisIdx]
  have hb1 : bilinearInterp 2 2 (1/2)
      (sampleX ⟨1, 0, 2, 1, 1, 2, 1, 2, 2⟩ 0 1) = none := by
    norm_num [bilinearInterp, sampleX]
  have hinner : ∀ (v : ℤ → ℤ → ℚ) fuel acc,
      innerLoopF v 2 2 ⟨1, 0, 2, 1, 1, 2, 1, 2, 2⟩ 0 fuel 0
        (sampleY ⟨1, 0, 2, 1, 1, 2, 1, 2, 2⟩ 0 0) acc = none := by
    intro v fuel acc
    cases fuel with
    | zero => rfl
    | succ n =>
      simp only [innerLoopF]
      rw [if_pos (by norm_num : (0 : ℤ) < (2 : ℤ)), hb0]
      exact innerLoopF_stuck v 2 2 _ 0 _ _ _ (by norm_num) hb1 n
  refine forward_single_none cfg4 x4 roi4 rfl rfl rfl (fun fuel => ?_)
  refine cellForward_none cfg4 x4 roi4 0 0 0 fuel ?_
  rw [show x4.H = 2 from rfl, show x4.W = 2 from rfl, hg]
  exact outerLoopF_firstStuck _ 2 2 _ 0 0 (by norm_num) (hinner _) fuel 0

/-- Configuration for the C8 failing input: 1 x 1 output, spatial scale 1,
sampling ratio 1. -/
def cfg8 : Config := ⟨1, 1, 1, 1, 1⟩

/-- Feature map for the C8 failing input: shape (1, 1, 2, 2), all zeros. -/
def x8 : FeatureMap := ⟨1, 1, 2, 2, fun _ _ _ _ => 0⟩

/-- ROI for the C8 failing input: batch 0, DEGENERATE box with
x_min = x_max = 5 (zero width), placed to the right of the 2 x 2 feature
map; its width is clamped to 1 and its single sample has x = 11/2 > 2. -/
def roi8 : Roi := ⟨0, 5, 0, 5, 1⟩

/-- Claim C8: the clamp half is true — for EVERY ROI and configuration the
resolved region width and height are the max of the scaled extent and 1,
hence at least 1 (first conjunct).  But the claim that forward always
produces a defined value on degenerate ROIs is FALSE on the CPU code: for
the degenerate ROI roi8 (x_min = x_max) whose clamped 1 x 1 box lies
outside the feature map, forward diverges for every fuel (second conjunct)
instead of producing the defined value 0 that the reference algorithm
(skip + divide) would give. -/
theorem c8_degenerate_roi :
    (∀ (cfg : Config) (roi : Roi),
        (roiGeom cfg roi).roi_width =
            max (roi.x_max * cfg.spatial_scale - roi.x_min * cfg.spatial_scale) 1 ∧
        (roiGeom cfg roi).roi_height =
            max (roi.y_max * cfg.spatial_scale - roi.y_min * cfg.spatial_scale) 1 ∧
        1 ≤ (roiGeom cfg roi).roi_width ∧ 1 ≤ (roiGeom cfg roi).roi_height) ∧
    (∀ fuel, forwardCPU cfg8 x8 [roi8] fuel = none) := by
  constructor
  · intro cfg roi
    refine ⟨rfl, rfl, ?_, ?_⟩ <;> exact le_max_right _ _
  · have hg : roiGeom cfg8 roi8 = ⟨5, 0, 1, 1, 1, 1, 1, 1, 1⟩ := by
      norm_num [roiGeom, cfg8, roi8]
    have hb : bilinearInterp 2 2 (sampleY ⟨5, 0, 1, 1, 1, 1, 1, 1, 1⟩ 0 0)
        (sampleX ⟨5, 0, 1, 1, 1, 1, 1, 1, 1⟩ 0 0) = none := by
      norm_num [bilinearInterp, sampleY, sampleX]
    refine forward_single_none cfg8 x8 roi8 rfl rfl rfl (fun fuel => ?_)
    refine cellForward_none cfg8 x8 roi8 0 0 0 fuel ?_
    rw [show x8.H = 2 from rfl, show x8.W = 2 from rfl, hg]
    exact outerLoopF_firstStuck _ 2 2 _ 0 0 (by norm_num)
      (fun fuel acc => innerLoopF_stuck _ 2 2 _ 0 0 _ acc (by norm_num) hb fuel)
      fuel 0

/-! ### Claim C6: backward never reads the feature map's values -/

/-- Claim C6: the backward pass depends only on the ROI list, the retained
shape, the configuration and the output gradient — never on the feature
map's values.  For any two feature maps (of any contents), with everything
else identical, backward returns identical results; the proof is
definitional because the embedded backward_cpu (like the source, which only
reads `inputs[1]` and `self._bottom_data_shape`) never touches its
feature-map argument. -/
theorem c6_backward_value_independent (cfg : Config) (x1 x2 : FeatureMap)
    (rois : List Roi) (shape : DataShape) (gy : ℕ → ℕ → ℕ → ℕ → ℚ)
    (fuel : ℕ) :
    backwardCPU cfg x1 rois shape gy fuel = backwardCPU cfg x2 rois shape gy fuel :=
  rfl

/-! ### Claim C9: forward output shape -/

/-- Claim C9: whenever forward returns, the returned array has shape
exactly (num_rois, channels, out_height, out_width) — the shape
`numpy.empty` is given on lines 83-84. -/
theorem c9_forward_shape (cfg : Config) (x : FeatureMap) (rois : List Roi)
    (fuel : ℕ) (t : TopData) (h : forwardCPU cfg x rois fuel = some t) :
    t.shape = (rois.length, x.C, cfg.outh, cfg.outw) := by
  simp only [forwardCPU] at h
  rw [Option.map_eq_some'] at h
  obtain ⟨t0, _, ht⟩ := h
  rw [← ht]

/-- Configuration for the C9 witness. -/
def cfg9 : Config := ⟨1, 1, 1, 1, 1⟩

/-- Feature map for the C9 witness: shape (1, 1, 1, 1), constant 2. -/
def x9 : FeatureMap := ⟨1, 1, 1, 1, fun _ _ _ _ => 2⟩

/-- ROI for the C9 witness: the unit box at the origin (its one sample
point is in-bounds, so forward terminates). -/
def roi9 : Roi := ⟨0, 0, 0, 1, 1⟩

/-- The output array forward produces on the C9 witness input. -/
def t9 : TopData := ⟨(1, 1, 1, 1), writeCell (fun _ _ _ _ => 0) 0 0 0 0 2⟩

/-- Claim C9, witness: forward terminates on a concrete input and the shape
theorem applies to the result. -/
theorem c9_forward_shape_witness :
    forwardCPU cfg9 x9 [roi9] 5 = some t9 ∧ t9.shape = (1, 1, 1, 1) := by
  have h : forwardCPU cfg9 x9 [roi9] 5 = some t9 := by
    norm_num [forwardCPU, cellsLoopF, idxList, cellForward, outerLoopF, innerLoopF,
      sampleY, sampleX, bilinearInterp, clampLow, axisIdx, roiGeom, pyTrunc,
      cfg9, x9, roi9, t9]
  exact ⟨h, c9_forward_shape cfg9 x9 [roi9] 5 t9 h⟩

/-! ### Claims C7 and C10: corner indices and bilinear weights -/

/-- Helper: the low clamp never produces a negative coordinate. -/
lemma clampLow_nonneg (q : ℚ) : 0 ≤ clampLow q := by
  unfold clampLow
  split_ifs with h <;> linarith

/-- Helper: the low clamp preserves an upper bound that is non-negative. -/
lemma clampLow_le (q c : ℚ) (h : q ≤ c) (hc : 0 ≤ c) : clampLow q ≤ c := by
  unfold clampLow
  split_ifs with h2 <;> linarith

/-- Helper: for an axis of extent at least 1 and a coordinate in [0, n],
both neighbor indices produced by the collapse step lie in [0, n - 1]. -/
lemma axisIdx_bounds (n : ℕ) (q : ℚ) (hn : 1 ≤ n) (h0 : 0 ≤ q) :
    0 ≤ (axisIdx n q).low ∧ (axisIdx n q).low ≤ (n : ℤ) - 1 ∧
    0 ≤ (axisIdx n q).high ∧ (axisIdx n q).high ≤ (n : ℤ) - 1 := by
  simp only [axisIdx]
  split_ifs with h
  · dsimp only
    omega
  · dsimp only
    have hf : 0 ≤ ⌊q⌋ := Int.floor_nonneg.mpr h0
    omega

/-- Helper: the fractional offset coord - low produced by the per-axis
computation always lies in [0, 1] (it is 0 in the collapse branch and
q - floor q otherwise). -/
lemma axisIdx_frac (n : ℕ) (q : ℚ) :
    0 ≤ (axisIdx n q).coord - ((axisIdx n q).low : ℚ) ∧
    (axisIdx n q).coord - ((axisIdx n q).low : ℚ) ≤ 1 := by
  simp only [axisIdx]
  split_ifs with h
  · dsimp only
    constructor <;> simp
  · dsimp only
    have h1 := Int.floor_le q
    have h2 := Int.lt_floor_add_one q
    constructor <;> linarith

/-- Claim C7: for every accepted (in-bounds) sample point, given
height, width ≥ 1, all four corner indices lie in [0, height - 1]
(resp. [0, width - 1]); in particular they are non-negative, so the
defensive guard of backward lines 400-401 always passes and every
feature-map / gradient-map access of lines 157-160 and 402-405 is
in-bounds. -/
theorem c7_corner_indices_in_range (H W : ℕ) (y x : ℚ) (b : BilinOut)
    (hH : 1 ≤ H) (hW : 1 ≤ W) (h : bilinearInterp H W y x = some b) :
    0 ≤ b.y_low ∧ b.y_low ≤ (H : ℤ) - 1 ∧ 0 ≤ b.y_high ∧ b.y_high ≤ (H : ℤ) - 1 ∧
    0 ≤ b.x_low ∧ b.x_low ≤ (W : ℤ) - 1 ∧ 0 ≤ b.x_high ∧ b.x_high ≤ (W : ℤ) - 1 := by
  simp only [bilinearInterp] at h
  split_ifs at h with hoob
  rw [Option.some.injEq] at h
  subst h
  dsimp only
  have hyb := axisIdx_bounds H (clampLow y) hH (clampLow_nonneg y)
  have hxb := axisIdx_bounds W (clampLow x) hW (clampLow_nonneg x)
  exact ⟨hyb.1, hyb.2.1, hyb.2.2.1, hyb.2.2.2,
         hxb.1, hxb.2.1, hxb.2.2.1, hxb.2.2.2⟩

/-- Bilinear output at the C7 witness sample (H = W = 2, y = x = 1/2). -/
def b7 : BilinOut := ⟨0, 0, 1, 1, 1/4, 1/4, 1/4, 1/4, 1/2, 1/2⟩

/-- Claim C7, witness: a concrete in-bounds sample on a 2 x 2 map with all
corner indices within range. -/
theorem c7_corner_indices_witness :
    bilinearInterp 2 2 (1/2) (1/2) = some b7 ∧
    (0 ≤ b7.y_low ∧ b7.y_low ≤ (2 : ℤ) - 1 ∧ 0 ≤ b7.y_high ∧ b7.y_high ≤ (2 : ℤ) - 1 ∧
     0 ≤ b7.x_low ∧ b7.x_low ≤ (2 : ℤ) - 1 ∧ 0 ≤ b7.x_high ∧ b7.x_high ≤ (2 : ℤ) - 1) := by
  have h : bilinearInterp 2 2 (1/2) (1/2) = some b7 := by
    norm_num [bilinearInterp, clampLow, axisIdx, b7]
  exact ⟨h, c7_corner_indices_in_range 2 2 (1/2) (1/2) b7 (by norm_num) (by norm_num) h⟩

/-- Claim C10: for every accepted sample point the four bilinear corner
weights each lie in [0, 1] and sum exactly to 1, so the sample's
contribution is a convex combination of the four corner values. -/
theorem c10_weights_convex (H W : ℕ) (y x : ℚ) (b : BilinOut)
    (h : bilinearInterp H W y x = some b) :
    0 ≤ b.w1 ∧ b.w1 ≤ 1 ∧ 0 ≤ b.w2 ∧ b.w2 ≤ 1 ∧ 0 ≤ b.w3 ∧ b.w3 ≤ 1 ∧
    0 ≤ b.w4 ∧ b.w4 ≤ 1 ∧ b.w1 + b.w2 + b.w3 + b.w4 = 1 := by
  simp only [bilinearInterp] at h
  split_ifs at h with hoob
  rw [Option.some.injEq] at h
  subst h
  dsimp only
  obtain ⟨hly, hly1⟩ := axisIdx_frac H (clampLow y)
  obtain ⟨hlx, hlx1⟩ := axisIdx_frac W (clampLow x)
  refine ⟨?_, ?_, ?_, ?_, ?_, ?_, ?_, ?_, by ring⟩ <;>
    first
      | exact mul_nonneg (by linarith) (by linarith)
      | exact mul_le_one₀ (by linarith) (by linarith) (by linarith)

/-- Bilinear output at the C10 witness sample (H = W = 2, y = 3/4,
x = 1/4). -/
def b10 : BilinOut := ⟨0, 0, 1, 1, 3/16, 1/16, 9/16, 3/16, 3/4, 1/4⟩

/-- Claim C10, witness: a concrete accepted sample whose weights are in
[0, 1] and sum to 1. -/
theorem c10_weights_convex_witness :
    bilinearInterp 2 2 (3/4) (1/4) = some b10 ∧
    (0 ≤ b10.w1 ∧ b10.w1 ≤ 1 ∧ 0 ≤ b10.w2 ∧ b10.w2 ≤ 1 ∧ 0 ≤ b10.w3 ∧ b10.w3 ≤ 1 ∧
     0 ≤ b10.w4 ∧ b10.w4 ≤ 1 ∧ b10.w1 + b10.w2 + b10.w3 + b10.w4 = 1) := by
  have h : bilinearInterp 2 2 (3/4) (1/4) = some b10 := by
    norm_num [bilinearInterp, clampLow, axisIdx, b10]
  exact ⟨h, c10_weights_convex 2 2 (3/4) (1/4) b10 h⟩

/-! ### Claim C5: backward is additive over ROI lists

The backward loops accumulate into the gradient map only through `addAt`,
so running them from a shifted initial state shifts the result by the same
amount (the `gadd` lemmas below), and the ROI loop splits over list
concatenation.  Fuel-monotonicity lemmas let the three backward calls of
the claim use unrelated fuel values. -/

/-- Single-step unfolding of the inner backward loop at positive fuel. -/
lemma bwInner_succ (bi c : ℤ) (H W : ℕ) (g : RoiGeom) (pw : ℕ) (tdb : ℚ)
    (fuel : ℕ) (ix : ℤ) (y : ℚ) (D : Grad) :
    bwInner bi c H W g pw tdb (fuel + 1) ix y D =
      if ix < g.grid_w then
        match bilinearInterp H W y (sampleX g pw ix) with
        | none => bwInner bi c H W g pw tdb fuel ix y D
        | some b => bwInner bi c H W g pw tdb fuel (ix + 1) b.y (bwUpdate bi c g tdb b D)
      else some D := rfl

/-- Single-step unfolding of the outer backward loop at positive fuel. -/
lemma bwOuter_succ (bi c : ℤ) (H W : ℕ) (g : RoiGeom) (ph pw : ℕ) (tdb : ℚ)
    (fuel : ℕ) (iy : ℤ) (D : Grad) :
    bwOuter bi c H W g ph pw tdb (fuel + 1) iy D =
      if iy < g.grid_h then
        match bwInner bi c H W g pw tdb fuel 0 (sampleY g ph iy) D with
        | none => none
        | some D2 => bwOuter bi c H W g ph pw tdb fuel (iy + 1) D2
      else some D := rfl

/-- Helper: more fuel preserves a successful inner backward loop run. -/
lemma bwInner_mono (bi c : ℤ) (H W : ℕ) (g : RoiGeom) (pw : ℕ) (tdb : ℚ) :
    ∀ fuel ix y D F, bwInner bi c H W g pw tdb fuel ix y D = some F →
      bwInner bi c H W g pw tdb (fuel + 1) ix y D = some F := by
  intro fuel
  induction fuel with
  | zero => intro ix y D F h; simp [bwInner] at h
  | succ n ih =>
    intro ix y D F h
    rw [bwInner_succ] at h ⊢
    by_cases hc : ix < g.grid_w
    · rw [if_pos hc] at h ⊢
      cases hb : bilinearInterp H W y (sampleX g pw ix) with
      | none => rw [hb] at h; exact ih _ _ _ _ h
      | some b => rw [hb] at h; exact ih _ _ _ _ h
    · rw [if_neg hc] at h ⊢; exact h

/-- Helper: more fuel preserves a successful outer backward loop run. -/
lemma bwOuter_mono (bi c : ℤ) (H W : ℕ) (g : RoiGeom) (ph pw : ℕ) (tdb : ℚ) :
    ∀ fuel iy D F, bwOuter bi c H W g ph pw tdb fuel iy D = some F →
      bwOuter bi c H W g ph pw tdb (fuel + 1) iy D = some F := by
  intro fuel
  induction fuel with
  | zero => intro iy D F h; simp [bwOuter] at h
  | succ n ih =>
    intro iy D F h
    rw [bwOuter_succ] at h ⊢
    by_cases hc : iy < g.grid_h
    · rw [if_pos hc] at h ⊢
      cases hb : bwInner bi c H W g pw tdb n 0 (sampleY g ph iy) D with
      | none => rw [hb] at h; simp at h
      | some D2 =>
        rw [hb] at h
        rw [bwInner_mono bi c H W g pw tdb n 0 (sampleY g ph iy) D D2 hb]
        exact ih _ _ _ h
    · rw [if_neg hc] at h ⊢; exact h

/-- Helper: more fuel preserves a successful per-cell backward run. -/
lemma cellBackward_mono (cfg : Config) (H W : ℕ) (roi : Roi) (c ph pw : ℕ)
    (tdb : ℚ) (fuel : ℕ) (D F : Grad)
    (h : cellBackward cfg H W roi c ph pw tdb fuel D = some F) :
    cellBackward cfg H W roi c ph pw tdb (fuel + 1) D = some F :=
  bwOuter_mono _ _ H W _ ph pw tdb fuel 0 D F h

/-- Helper: more fuel preserves a successful cell-list backward run. -/
lemma bwCells_mono (cfg : Config) (H W : ℕ) (roi : Roi)
    (gyn : ℕ → ℕ → ℕ → ℚ) (fuel : ℕ) :
    ∀ L D F, bwCells cfg H W roi gyn fuel L D = some F →
      bwCells cfg H W roi gyn (fuel + 1) L D = some F := by
  intro L
  induction L with
  | nil => intro D F h; exact h
  | cons t rest ih =>
    intro D F h
    obtain ⟨c, ph, pw⟩ := t
    simp only [bwCells] at h ⊢
    cases hb : cellBackward cfg H W roi c ph pw (gyn c ph pw) fuel D with
    | none => rw [hb] at h; simp at h
    | some D2 =>
      rw [hb] at h
      rw [cellBackward_mono cfg H W roi c ph pw (gyn c ph pw) fuel D D2 hb]
      exact ih _ _ h

/-- Helper: more fuel preserves a successful single-ROI backward run. -/
lemma roiBackward_mono (cfg : Config) (shape : DataShape) (roi : Roi)
    (gyn : ℕ → ℕ → ℕ → ℚ) (fuel : ℕ) (D F : Grad)
    (h : roiBackward cfg shape roi gyn fuel D = some F) :
    roiBackward cfg shape roi gyn (fuel + 1) D = some F :=
  bwCells_mono cfg shape.h shape.w roi gyn fuel _ D F h

/-- Helper: more fuel preserves a successful ROI-list backward run. -/
lemma roisLoop_mono (cfg : Config) (shape : DataShape)
    (gy : ℕ → ℕ → ℕ → ℕ → ℚ) (fuel : ℕ) :
    ∀ R n D F, roisLoop cfg shape gy fuel R n D = some F →
      roisLoop cfg shape gy (fuel + 1) R n D = some F := by
  intro R
  induction R with
  | nil => intro n D F h; exact h
  | cons roi rest ih =>
    intro n D F h
    simp only [roisLoop] at h ⊢
    cases hb : roiBackward cfg shape roi (gy n) fuel D with
    | none => rw [hb] at h; simp at h
    | some D2 =>
      rw [hb] at h
      rw [roiBackward_mono cfg shape roi (gy n) fuel D D2 hb]
      exact ih _ _ _ h

/-- Helper: fuel monotonicity for the ROI-list backward loop, ≤ form. -/
lemma roisLoop_mono_le (cfg : Config) (shape : DataShape)
    (gy : ℕ → ℕ → ℕ → ℕ → ℚ) (fuel fuel' : ℕ) (hle : fuel ≤ fuel')
    (R : List Roi) (n : ℕ) (D F : Grad)
    (h : roisLoop cfg shape gy fuel R n D = some F) :
    roisLoop cfg shape gy fuel' R n D = some F := by
  induction fuel', hle using Nat.le_induction with
  | base => exact h
  | succ m hm ih => exact roisLoop_mono cfg shape gy m R n D F ih

/-- Helper: two successful ROI-list backward runs at any fuels agree. -/
lemma roisLoop_det (cfg : Config) (shape : DataShape)
    (gy : ℕ → ℕ → ℕ → ℕ → ℚ) (f1 f2 : ℕ) (R : List Roi) (n : ℕ) (D F1 F2 : Grad)
    (h1 : roisLoop cfg shape gy f1 R n D = some F1)
    (h2 : roisLoop cfg shape gy f2 R n D = some F2) : F1 = F2 := by
  have a1 := roisLoop_mono_le cfg shape gy f1 (max f1 f2) (le_max_left f1 f2) R n D F1 h1
  have a2 := roisLoop_mono_le cfg shape gy f2 (max f1 f2) (le_max_right f1 f2) R n D F2 h2
  rw [a1] at a2
  exact Option.some.inj a2

/-- Helper: a point accumulation commutes with a pointwise shift of the
gradient map. -/
lemma addAt_gadd (D E : Grad) (b c y x : ℤ) (g : ℚ) :
    addAt (gadd D E) b c y x g = gadd (addAt D b c y x g) E := by
  funext b' c' y' x'
  simp only [addAt, gadd]
  split_ifs <;> ring

/-- Helper: the scatter step commutes with a pointwise shift. -/
lemma bwUpdate_gadd (bi c : ℤ) (g : RoiGeom) (tdb : ℚ) (b : BilinOut)
    (D E : Grad) :
    bwUpdate bi c g tdb b (gadd D E) = gadd (bwUpdate bi c g tdb b D) E := by
  simp only [bwUpdate]
  split_ifs with hg
  · rw [addAt_gadd, addAt_gadd, addAt_gadd, addAt_gadd]
  · rfl

/-- Helper: the inner backward loop started from a shifted gradient map
produces the shifted result (it only ever accumulates). -/
lemma bwInner_gadd (bi c : ℤ) (H W : ℕ) (g : RoiGeom) (pw : ℕ) (tdb : ℚ) :
    ∀ fuel ix y D E, bwInner bi c H W g pw tdb fuel ix y (gadd D E) =
      Option.map (fun F => gadd F E) (bwInner bi c H W g pw tdb fuel ix y D) := by
  intro fuel
  induction fuel with
  | zero => intro ix y D E; rfl
  | succ n ih =>
    intro ix y D E
    rw [bwInner_succ, bwInner_succ]
    by_cases hc : ix < g.grid_w
    · rw [if_pos hc, if_pos hc]
      cases hb : bilinearInterp H W y (sampleX g pw ix) with
      | none => exact ih _ _ _ _
      | some b =>
        have h2 := ih (ix + 1) b.y (bwUpdate bi c g tdb b D) E
        rw [← bwUpdate_gadd] at h2
        exact h2
    · rw [if_neg hc, if_neg hc]; rfl

/-- Helper: the outer backward loop started from a shifted gradient map
produces the shifted result. -/
lemma bwOuter_gadd (bi c : ℤ) (H W : ℕ) (g : RoiGeom) (ph pw : ℕ) (tdb : ℚ) :
    ∀ fuel iy D E, bwOuter bi c H W g ph pw tdb fuel iy (gadd D E) =
      Option.map (fun F => gadd F E) (bwOuter bi c H W g ph pw tdb fuel iy D) := by
  intro fuel
  induction fuel with
  | zero => intro iy D E; rfl
  | succ n ih =>
    intro iy D E
    rw [bwOuter_succ, bwOuter_succ]
    by_cases hc : iy < g.grid_h
    · rw [if_pos hc, if_pos hc, bwInner_gadd]
      cases hb : bwInner bi c H W g pw tdb n 0 (sampleY g ph iy) D with
      | none => rfl
      | some D2 => exact ih _ _ _
    · rw [if_neg hc, if_neg hc]; rfl

/-- Helper: the per-cell backward computation started from a shifted
gradient map produces the shifted result. -/
lemma cellBackward_gadd (cfg : Config) (H W : ℕ) (roi : Roi) (c ph pw : ℕ)
    (tdb : ℚ) (fuel : ℕ) (D E : Grad) :
    cellBackward cfg H W roi c ph pw tdb fuel (gadd D E) =
      Option.map (fun F => gadd F E) (cellBackward cfg H W roi c ph pw tdb fuel D) :=
  bwOuter_gadd _ _ H W _ ph pw tdb fuel 0 D E

/-- Helper: the per-ROI cell list started from a shifted gradient map
produces the shifted result. -/
lemma bwCells_gadd (cfg : Config) (H W : ℕ) (roi : Roi)
    (gyn : ℕ → ℕ → ℕ → ℚ) (fuel : ℕ) :
    ∀ L D E, bwCells cfg H W roi gyn fuel L (gadd D E) =
      Option.map (fun F => gadd F E) (bwCells cfg H W roi gyn fuel L D) := by
  intro L
  induction L with
  | nil => intro D E; rfl
  | cons t rest ih =>
    intro D E
    obtain ⟨c, ph, pw⟩ := t
    simp only [bwCells]
    rw [cellBackward_gadd]
    cases hb : cellBackward cfg H W roi c ph pw (gyn c ph pw) fuel D with
    | none => rfl
    | some D2 => exact ih _ _

/-- Helper: one ROI row's backward pass started from a shifted gradient map
produces the shifted result. -/
lemma roiBackward_gadd (cfg : Config) (shape : DataShape) (roi : Roi)
    (gyn : ℕ → ℕ → ℕ → ℚ) (fuel : ℕ) (D E : Grad) :
    roiBackward cfg shape roi gyn fuel (gadd D E) =
      Option.map (fun F => gadd F E) (roiBackward cfg shape roi gyn fuel D) :=
  bwCells_gadd cfg shape.h shape.w roi gyn fuel _ D E

/-- Helper: the ROI-list backward loop started from a shifted gradient map
produces the shifted result. -/
lemma roisLoop_gadd (cfg : Config) (shape : DataShape)
    (gy : ℕ → ℕ → ℕ → ℕ → ℚ) (fuel : ℕ) :
    ∀ R n D E, roisLoop cfg shape gy fuel R n (gadd D E) =
      Option.map (fun F => gadd F E) (roisLoop cfg shape gy fuel R n D) := by
  intro R
  induction R with
  | nil => intro n D E; rfl
  | cons roi rest ih =>
    intro n D E
    simp only [roisLoop]
    rw [roiBackward_gadd]
    cases hb : roiBackward cfg shape roi (gy n) fuel D with
    | none => rfl
    | some D2 => exact ih _ _ _

/-- Helper: shifting the zero gradient map is the identity. -/
lemma zero_gadd (D : Grad) : gadd zeroGrad D = D := by
  funext b c y x
  simp [gadd, zeroGrad]

/-- Helper: the ROI-list backward loop splits over list concatenation, the
second segment starting at the shifted ROI index. -/
lemma roisLoop_append (cfg : Config) (shape : DataShape)
    (gy : ℕ → ℕ → ℕ → ℕ → ℚ) (fuel : ℕ) :
    ∀ (R1 R2 : List Roi) (n : ℕ) (D : Grad),
      roisLoop cfg shape gy fuel (R1 ++ R2) n D =
        (roisLoop cfg shape gy fuel R1 n D).bind
          (fun Dm => roisLoop cfg shape gy fuel R2 (n + R1.length) Dm) := by
  intro R1
  induction R1 with
  | nil => intro R2 n D; simp [roisLoop]
  | cons roi rest ih =>
    intro R2 n D
    simp only [List.cons_append, roisLoop]
    cases hb : roiBackward cfg shape roi (gy n) fuel D with
    | none => rfl
    | some D2 =>
      have h2 := ih R2 (n + 1) D2
      have e : n + 1 + rest.length = n + (rest.length + 1) := by omega
      rw [e] at h2
      exact h2

/-- Helper: the ROI-list backward loop only reads the gradient rows of the
ROIs it processes; two gradient arrays that agree on those rows (up to the
respective start offsets) give identical runs. -/
lemma roisLoop_congr_gy (cfg : Config) (shape : DataShape)
    (gy1 gy2 : ℕ → ℕ → ℕ → ℕ → ℚ) (fuel : ℕ) :
    ∀ (R : List Roi) (n1 n2 : ℕ) (D : Grad),
      (∀ m, m < R.length → gy1 (n1 + m) = gy2 (n2 + m)) →
      roisLoop cfg shape gy1 fuel R n1 D = roisLoop cfg shape gy2 fuel R n2 D := by
  intro R
  induction R with
  | nil => intro n1 n2 D h; rfl
  | cons roi rest ih =>
    intro n1 n2 D h
    simp only [roisLoop]
    have h0 : gy1 n1 = gy2 n2 := by
      have := h 0 (by simp)
      simpa using this
    rw [h0]
    cases hb : roiBackward cfg shape roi (gy2 n2) fuel D with
    | none => rfl
    | some D2 =>
      refine ih (n1 + 1) (n2 + 1) D2 (fun m hm => ?_)
      have e1 : n1 + 1 + m = n1 + (m + 1) := by omega
      have e2 : n2 + 1 + m = n2 + (m + 1) := by omega
      rw [e1, e2]
      exact h (m + 1) (by simpa using Nat.succ_lt_succ hm)

/-- Claim C5: backward is additive over ROIs.  For any two ROI lists with
their output gradients, if the two separate backward calls and the call on
the concatenated ROI list (with the concatenated output gradient) all
return, then at every feature-map cell the combined gradient map is the sum
of the two separate gradient maps, in exact arithmetic.  Each call may use
its own fuel. -/
theorem c5_backward_additive (cfg : Config) (x : FeatureMap)
    (shape : DataShape) (R1 R2 : List Roi) (gy1 gy2 : ℕ → ℕ → ℕ → ℕ → ℚ)
    (f1 f2 fc : ℕ) (D1 D2 Dc : Grad)
    (h1 : backwardCPU cfg x R1 shape gy1 f1 = some D1)
    (h2 : backwardCPU cfg x R2 shape gy2 f2 = some D2)
    (hc : backwardCPU cfg x (R1 ++ R2) shape (gyConcat R1.length gy1 gy2) fc = some Dc) :
    ∀ b ch yy xx, Dc b ch yy xx = D1 b ch yy xx + D2 b ch yy xx := by
  simp only [backwardCPU] at h1 h2 hc
  rw [roisLoop_append, Option.bind_eq_some] at hc
  obtain ⟨Dm, e1, e2⟩ := hc
  have ecg1 : roisLoop cfg shape (gyConcat R1.length gy1 gy2) fc R1 0 zeroGrad =
      roisLoop cfg shape gy1 fc R1 0 zeroGrad := by
    refine roisLoop_congr_gy cfg shape _ gy1 fc R1 0 0 zeroGrad (fun m hm => ?_)
    simp [gyConcat, hm]
  rw [ecg1] at e1
  have hD1 : Dm = D1 := roisLoop_det cfg shape gy1 fc f1 R1 0 zeroGrad Dm D1 e1 h1
  have ecg2 : roisLoop cfg shape (gyConcat R1.length gy1 gy2) fc R2 (0 + R1.length) Dm =
      roisLoop cfg shape gy2 fc R2 0 Dm := by
    refine roisLoop_congr_gy cfg shape _ gy2 fc R2 (0 + R1.length) 0 Dm (fun m hm => ?_)
    have hnlt : ¬ (0 + R1.length + m < R1.length) := by omega
    have hsub : 0 + R1.length + m - R1.length = 0 + m := by omega
    simp [gyConcat, hnlt, hsub]
  rw [ecg2] at e2
  have lin := roisLoop_gadd cfg shape gy2 fc R2 0 zeroGrad Dm
  rw [zero_gadd, e2] at lin
  have lin' := lin.symm
  rw [Option.map_eq_some'] at lin'
  obtain ⟨D2', e3, hDc⟩ := lin'
  have hD2 : D2' = D2 := roisLoop_det cfg shape gy2 fc f2 R2 0 zeroGrad D2' D2 e3 h2
  intro b ch yy xx
  rw [← hDc]
  simp only [gadd]
  rw [hD1, hD2]
  ring

/-- Configuration for the C5 witness. -/
def cfg5 : Config := ⟨1, 1, 1, 1, 1⟩

/-- Feature map for the C5 witness: shape (1, 1, 1, 1), zeros (backward
never reads the values anyway). -/
def x5 : FeatureMap := ⟨1, 1, 1, 1, fun _ _ _ _ => 0⟩

/-- Retained shape for the C5 witness. -/
def sh5 : DataShape := ⟨1, 1, 1, 1⟩

/-- First ROI of the C5 witness: the unit box at the origin. -/
def r5a : Roi := ⟨0, 0, 0, 1, 1⟩

/-- Second ROI of the C5 witness: also the unit box (its samples hit the
same feature-map cell, the interesting accumulation case). -/
def r5b : Roi := ⟨0, 0, 0, 1, 1⟩

/-- Output gradient for the first C5 witness call: constant 1. -/
def gy5a : ℕ → ℕ → ℕ → ℕ → ℚ := fun _ _ _ _ => 1

/-- Output gradient for the second C5 witness call: constant 2. -/
def gy5b : ℕ → ℕ → ℕ → ℕ → ℚ := fun _ _ _ _ => 2

/-- Gradient map returned by backward on ([r5a], gy5a). -/
def wD1 : Grad :=
  addAt (addAt (addAt (addAt zeroGrad 0 0 0 0 1) 0 0 0 0 0) 0 0 0 0 0) 0 0 0 0 0

/-- Gradient map returned by backward on ([r5b], gy5b). -/
def wD2 : Grad :=
  addAt (addAt (addAt (addAt zeroGrad 0 0 0 0 2) 0 0 0 0 0) 0 0 0 0 0) 0 0 0 0 0

/-- Gradient map returned by backward on the concatenated ROI list. -/
def wDc : Grad :=
  addAt (addAt (addAt (addAt wD1 0 0 0 0 2) 0 0 0 0 0) 0 0 0 0 0) 0 0 0 0 0

/-- Claim C5, witness: the three backward calls of the additivity theorem
evaluated on a concrete two-ROI instance, and the combined gradient at the
cell (0,0,0,0) both ROIs scatter into equals the sum of the separate
gradients there. -/
theorem c5_backward_additive_witness :
    backwardCPU cfg5 x5 [r5a] sh5 gy5a 5 = some wD1 ∧
    backwardCPU cfg5 x5 [r5b] sh5 gy5b 5 = some wD2 ∧
    backwardCPU cfg5 x5 [r5a, r5b] sh5 (gyConcat 1 gy5a gy5b) 5 = some wDc ∧
    wDc 0 0 0 0 = wD1 0 0 0 0 + wD2 0 0 0 0 := by
  have ha : backwardCPU cfg5 x5 [r5a] sh5 gy5a 5 = some wD1 := by
    norm_num [backwardCPU, roisLoop, roiBackward, bwCells, cellIdxList,
      cellBackward, bwOuter, bwInner, bwUpdate, sampleY, sampleX,
      bilinearInterp, clampLow, axisIdx, roiGeom, pyTrunc,
      cfg5, x5, sh5, r5a, gy5a, wD1]
  have hb : backwardCPU cfg5 x5 [r5b] sh5 gy5b 5 = some wD2 := by
    norm_num [backwardCPU, roisLoop, roiBackward, bwCells, cellIdxList,
      cellBackward, bwOuter, bwInner, bwUpdate, sampleY, sampleX,
      bilinearInterp, clampLow, axisIdx, roiGeom, pyTrunc,
      cfg5, x5, sh5, r5b, gy5b, wD2]
  have hcc : backwardCPU cfg5 x5 [r5a, r5b] sh5 (gyConcat 1 gy5a gy5b) 5 = some wDc := by
    norm_num [backwardCPU, roisLoop, roiBackward, bwCells, cellIdxList,
      cellBackward, bwOuter, bwInner, bwUpdate, sampleY, sampleX,
      bilinearInterp, clampLow, axisIdx, roiGeom, pyTrunc, gyConcat,
      cfg5, x5, sh5, r5a, r5b, gy5a, gy5b, wD1, wDc]
  exact ⟨ha, hb, hcc,
    c5_backward_additive cfg5 x5 sh5 [r5a] [r5b] gy5a gy5b 5 5 5 wD1 wD2 wDc
      ha hb hcc 0 0 0 0⟩

end RoiAlign2D

